import Mathlib

/-!
Verification of the category-traversal and section-extraction core of the
NLP-topic-modeling repository (`functions.py`, `extract_wikipedia_data.py`).

The two recursive algorithms are embedded shallowly:

* `get_categorymembers` embeds the Python function of the same name.  A
  category node from the content service is modelled by `WNode`: a title, a
  namespace tag (`0` = `wikipediaapi.Namespace.MAIN`, i.e. a content
  document; `14` = `wikipediaapi.Namespace.CATEGORY`), and the list of
  member nodes returned by `category.categorymembers`, in enumeration
  order.  The single Python loop that partitions `members.values()` into
  counted/appended pages and collected subcategories is expressed by
  `List.filter isMainPage` (pages, in order) and by the recursive helper
  `recurse_subcategories`, which walks the member list in order and
  recurses exactly on the category members, mirroring the
  `for cat in subcategories` loop.  The Python list mutated in place is the
  explicit accumulator `pages`.  `verbose` printing is dropped.  The spec
  constrains `n_pages_per_level_threshold` and `max_level` to be
  non-negative or `None`, so they are embedded as `Option Nat`.

* `get_categorymembers_fueled` is the same algorithm over an arbitrary
  (possibly cyclic) category graph, given by a namespace tag and a child
  list per node identifier; recursion is metered by explicit fuel and
  exhaustion returns `none`, so termination claims become `isSome`
  statements.

* `get_page_text`, `filter_by_keywords` and `get_section_text` embed the
  extraction functions of the same names.  A document section is `WSect`
  (title, body text, child sections); a document is `WikiPage`.
  `re.search('|'.join(keywords), text.lower())` is modelled for
  metacharacter-free patterns: `'|'.join` of the empty list is the empty
  pattern, which matches at position 0 of any text, and otherwise the
  search succeeds exactly when some alternative occurs as a substring of
  the lower-cased text (an empty keyword also matches anywhere).
  Python's `str.lower` is modelled by lowering each character
  (`str_lower`); on the ASCII titles at issue this agrees with Python.
-/

/-! ## Category traversal: data model -/

/-- Namespace tag of a content document (`wikipediaapi.Namespace.MAIN`). -/
def NS_MAIN : Int := 0

/-- Namespace tag of a category (`wikipediaapi.Namespace.CATEGORY`). -/
def NS_CATEGORY : Int := 14

/-- A node of the category graph as seen by `get_categorymembers`: title,
namespace tag, and the member nodes listed by `category.categorymembers`
in enumeration order. -/
inductive WNode : Type where
  | node (title : String) (ns : Int) (members : List WNode)
deriving Repr

/-- Namespace tag of a node (`page.ns`). -/
def WNode.nsTag : WNode → Int
  | .node _ n _ => n

/-- Member list of a node (`category.categorymembers`, in order). -/
def WNode.members : WNode → List WNode
  | .node _ _ ms => ms

/-- The test `page.ns == wikipediaapi.Namespace.MAIN` of the partition loop. -/
def isMainPage (p : WNode) : Bool := p.nsTag == NS_MAIN

/-- The test `page.ns == wikipediaapi.Namespace.CATEGORY` of the partition
loop. -/
def isCategory (p : WNode) : Bool := p.nsTag == NS_CATEGORY

/-- The guard of the recursion in `get_categorymembers`:
`(n_pages_per_level_threshold is None or n_pages < n_pages_per_level_threshold)
and (max_level is None or level < max_level)`. -/
def descend_condition (thr : Option Nat) (n_pages : Nat)
    (maxl : Option Nat) (level : Nat) : Bool :=
  (match thr with
   | none => true
   | some t => decide (n_pages < t)) &&
  (match maxl with
   | none => true
   | some m => decide (level < m))

mutual

/-- Embedding of `get_categorymembers(category, n_pages_per_level_threshold,
level, max_level, pages)` from `src/functions.py`.  The pages found at this
node (`members.filter isMainPage`, in enumeration order) are appended to the
accumulator; if the descend condition holds, the subcategories are traversed
in order at `level + 1`, extending the same accumulator; otherwise they are
dropped and the accumulated list is returned. -/
def get_categorymembers : WNode → Option Nat → Nat → Option Nat →
    List WNode → List WNode
  | .node _ _ members, thr, level, maxl, pages =>
    let pages1 := pages ++ members.filter isMainPage
    if descend_condition thr (members.filter isMainPage).length maxl level then
      recurse_subcategories members thr (level + 1) maxl pages1
    else
      pages1

/-- The loop `for cat in subcategories: get_categorymembers(cat, ...)` of
`get_categorymembers`: walk the member list in order and recurse exactly on
the category members, threading the accumulator. -/
def recurse_subcategories : List WNode → Option Nat → Nat → Option Nat →
    List WNode → List WNode
  | [], _, _, _, pages => pages
  | m :: rest, thr, level, maxl, pages =>
    if isCategory m then
      recurse_subcategories rest thr level maxl
        (get_categorymembers m thr level maxl pages)
    else
      recurse_subcategories rest thr level maxl pages

end

/-! ## Category traversal: basic lemmas -/

mutual

/-- The accumulator is only ever extended: a call on accumulator `pages`
returns `pages` followed by what the call discovers from an empty
accumulator. -/
theorem get_categorymembers_acc (c : WNode) (thr : Option Nat) (level : Nat)
    (maxl : Option Nat) (pages : List WNode) :
    get_categorymembers c thr level maxl pages =
      pages ++ get_categorymembers c thr level maxl [] := by
  cases c with
  | node t n members =>
    rw [get_categorymembers, get_categorymembers]
    by_cases h :
        descend_condition thr (members.filter isMainPage).length maxl level = true
    · simp only [h, if_pos]
      rw [recurse_subcategories_acc members thr (level + 1) maxl
            (pages ++ members.filter isMainPage),
          recurse_subcategories_acc members thr (level + 1) maxl
            ([] ++ members.filter isMainPage)]
      simp [List.append_assoc]
    · simp only [Bool.not_eq_true] at h
      simp [h]

/-- Accumulator extension for the subcategory loop. -/
theorem recurse_subcategories_acc (ms : List WNode) (thr : Option Nat)
    (level : Nat) (maxl : Option Nat) (pages : List WNode) :
    recurse_subcategories ms thr level maxl pages =
      pages ++ recurse_subcategories ms thr level maxl [] := by
  cases ms with
  | nil => simp [recurse_subcategories]
  | cons m rest =>
    rw [recurse_subcategories, recurse_subcategories]
    by_cases h : isCategory m = true
    · simp only [h, if_pos]
      rw [recurse_subcategories_acc rest thr level maxl
            (get_categorymembers m thr level maxl pages),
          recurse_subcategories_acc rest thr level maxl
            (get_categorymembers m thr level maxl []),
          get_categorymembers_acc m thr level maxl pages]
      simp [List.append_assoc]
    · simp only [Bool.not_eq_true] at h
      simp only [h, if_neg, Bool.false_eq_true, not_false_iff]
      rw [recurse_subcategories_acc rest thr level maxl pages]

end

/-- The subcategory loop from an empty accumulator returns the concatenation
of the subtree results of the category members, in member order. -/
theorem recurse_subcategories_eq (ms : List WNode) (thr : Option Nat)
    (level : Nat) (maxl : Option Nat) (pages : List WNode) :
    recurse_subcategories ms thr level maxl pages =
      pages ++ ((ms.filter isCategory).map
        (fun c => get_categorymembers c thr level maxl [])).flatten := by
  induction ms generalizing pages with
  | nil => simp [recurse_subcategories]
  | cons m rest ih =>
    rw [recurse_subcategories]
    by_cases h : isCategory m = true
    · simp only [h, if_pos]
      rw [ih, get_categorymembers_acc, List.filter_cons, if_pos h]
      simp [List.append_assoc]
    · simp only [Bool.not_eq_true] at h
      simp only [h, Bool.false_eq_true, if_neg, not_false_iff]
      rw [ih, List.filter_cons]
      simp [h]

/-- Structural unfolding of `get_categorymembers`: direct pages first, then —
exactly when the descend condition holds — the concatenated subtree results
of the subcategories in enumeration order, and nothing otherwise. -/
theorem get_categorymembers_eq (t : String) (n : Int) (ms : List WNode)
    (thr : Option Nat) (level : Nat) (maxl : Option Nat) (pages : List WNode) :
    get_categorymembers (.node t n ms) thr level maxl pages =
      pages ++ ms.filter isMainPage ++
        (if descend_condition thr (ms.filter isMainPage).length maxl level then
          ((ms.filter isCategory).map
            (fun c => get_categorymembers c thr (level + 1) maxl [])).flatten
        else []) := by
  rw [get_categorymembers]
  by_cases h : descend_condition thr (ms.filter isMainPage).length maxl level = true
  · simp only [h, if_pos]
    rw [recurse_subcategories_eq]
  · simp only [Bool.not_eq_true] at h
    simp [h]

/-! ## Category traversal over an arbitrary (possibly cyclic) graph -/

/-- A category graph as served by the content service: a namespace tag and an
ordered child listing (`category.categorymembers`) per node identifier.
Nothing prevents cycles. -/
structure CategoryGraph : Type where
  nsOf : Nat → Int
  childrenOf : Nat → List Nat

/-- The same `get_categorymembers` recursion over a `CategoryGraph`, metered
by explicit fuel: one unit of fuel is spent per node visit, every recursive
call of the subcategory loop runs on the remaining fuel, and exhausted fuel
returns `none`.  A `some` result is a run of the Python recursion that
reached its `return`. -/
def get_categorymembers_fueled (g : CategoryGraph) :
    Nat → Nat → Option Nat → Nat → Option Nat → List Nat → Option (List Nat)
  | 0, _, _, _, _, _ => none
  | fuel + 1, cat, thr, level, maxl, pages =>
    let members := g.childrenOf cat
    let ph := members.filter (fun p => g.nsOf p == NS_MAIN)
    let subcats := members.filter (fun p => g.nsOf p == NS_CATEGORY)
    let pages1 := pages ++ ph
    if descend_condition thr ph.length maxl level then
      subcats.foldl
        (fun acc c =>
          match acc with
          | none => none
          | some ps =>
            get_categorymembers_fueled g fuel c thr (level + 1) maxl ps)
        (some pages1)
    else
      some pages1

/-- A fold of the subcategory loop body over any list of children stays
`some` as long as every single recursive call is `some`. -/
theorem foldl_fueled_isSome (g : CategoryGraph) (fuel : Nat) (thr : Option Nat)
    (level : Nat) (maxl : Option Nat)
    (H : ∀ c ps, (get_categorymembers_fueled g fuel c thr level maxl ps).isSome
        = true)
    (l : List Nat) (init : List Nat) :
    ((l.foldl
      (fun acc c =>
        match acc with
        | none => none
        | some ps => get_categorymembers_fueled g fuel c thr level maxl ps)
      (some init))).isSome = true := by
  induction l generalizing init with
  | nil => rfl
  | cons c rest ih =>
    simp only [List.foldl_cons]
    have hc := H c init
    rcases ho : get_categorymembers_fueled g fuel c thr level maxl init with
      _ | ps
    · rw [ho] at hc
      simp at hc
    · exact ih ps

/-- With a finite depth bound `maxl = some m`, fuel `≥ m + 1 - level` (and at
least 1) never runs out: each recursive call raises `level` by exactly 1 and
descent requires `level < m`. -/
theorem fueled_isSome (fuel : Nat) : ∀ (g : CategoryGraph) (cat : Nat)
    (thr : Option Nat) (level : Nat) (m : Nat) (pages : List Nat),
    1 ≤ fuel → m + 1 ≤ fuel + level →
    (get_categorymembers_fueled g fuel cat thr level (some m) pages).isSome
      = true := by
  induction fuel with
  | zero => intro g cat thr level m pages h1 _; omega
  | succ f ih =>
    intro g cat thr level m pages _ h2
    rw [get_categorymembers_fueled]
    by_cases hc : descend_condition thr
        ((g.childrenOf cat).filter (fun p => g.nsOf p == NS_MAIN)).length
        (some m) level = true
    · simp only [hc, if_pos]
      apply foldl_fueled_isSome
      intro c ps
      have hlv : level < m := by
        have := hc
        unfold descend_condition at this
        rcases thr with _ | t <;> simp at this <;> tauto
      exact ih g c thr (level + 1) m ps (by omega) (by omega)
    · simp only [Bool.not_eq_true] at hc
      simp [hc]

/-! ## Concrete category fixtures -/

/-- First direct document of the "Mythology" scenario category. -/
def mythDoc1 : WNode := .node "Myth doc 1" 0 []

/-- Second direct document of the "Mythology" scenario category. -/
def mythDoc2 : WNode := .node "Myth doc 2" 0 []

/-- First document of the "Mythology/Norse" subcategory. -/
def norseDoc1 : WNode := .node "Norse doc 1" 0 []

/-- Second document of the "Mythology/Norse" subcategory. -/
def norseDoc2 : WNode := .node "Norse doc 2" 0 []

/-- Third document of the "Mythology/Norse" subcategory. -/
def norseDoc3 : WNode := .node "Norse doc 3" 0 []

/-- The scenario subcategory "Mythology/Norse": 3 direct documents, no
further subcategories. -/
def norseCat : WNode := .node "Category:Mythology Norse" 14 [norseDoc1, norseDoc2, norseDoc3]

/-- The scenario category "Mythology": 2 direct documents and the one
subcategory `norseCat`. -/
def mythologyCat : WNode := .node "Category:Mythology" 14 [mythDoc1, mythDoc2, norseCat]

/-- A document reachable through two different subcategories. -/
def dupDoc : WNode := .node "Shared doc" 0 []

/-- First of two subcategories both holding `dupDoc`. -/
def dupSub1 : WNode := .node "Category:A" 14 [dupDoc]

/-- Second of two subcategories both holding `dupDoc`. -/
def dupSub2 : WNode := .node "Category:B" 14 [dupDoc]

/-- A category in which `dupDoc` is reachable along two paths. -/
def dupRoot : WNode := .node "Category:Root" 14 [dupSub1, dupSub2]

/-- A self-looping category graph: every identifier is a category whose only
child is itself. -/
def cyclicGraph : CategoryGraph := ⟨fun _ => NS_CATEGORY, fun x => [x]⟩

/-! ## Claims about the category traversal -/

/-- C1: `get_categorymembers` descends into the subcategories of a node if
and only if (the threshold is `None` or the direct document count at this
level is strictly below it) and (the depth bound is `None` or the current
level is strictly below it); when the condition is false every subcategory
at this level is dropped and contributes nothing to the result. -/
theorem traverse_descend_iff_bounds :
    (∀ (t : String) (n : Int) (ms : List WNode) (thr : Option Nat)
        (level : Nat) (maxl : Option Nat) (pages : List WNode),
      (descend_condition thr (ms.filter isMainPage).length maxl level = false →
        get_categorymembers (.node t n ms) thr level maxl pages =
          pages ++ ms.filter isMainPage) ∧
      (descend_condition thr (ms.filter isMainPage).length maxl level = true →
        get_categorymembers (.node t n ms) thr level maxl pages =
          pages ++ ms.filter isMainPage ++
            ((ms.filter isCategory).map
              (fun c => get_categorymembers c thr (level + 1) maxl [])).flatten)) ∧
    (∀ (thr : Option Nat) (np : Nat) (maxl : Option Nat) (level : Nat),
      descend_condition thr np maxl level = true ↔
        ((thr = none ∨ ∃ tv, thr = some tv ∧ np < tv) ∧
         (maxl = none ∨ ∃ mv, maxl = some mv ∧ level < mv))) := by
  constructor
  · intro t n ms thr level maxl pages
    constructor
    · intro h
      rw [get_categorymembers_eq]
      simp [h]
    · intro h
      rw [get_categorymembers_eq]
      simp [h]
  · intro thr np maxl level
    rcases thr with _ | tv <;> rcases maxl with _ | mv <;>
      simp [descend_condition]

/-- Witness for C1 at the Mythology fixture: with `max_level = 0` the descend
condition is false and only the two direct documents are returned; with
`max_level = 1` it is true and the Norse documents follow. -/
theorem traverse_descend_iff_bounds_witness :
    get_categorymembers mythologyCat none 0 (some 0) [] = [mythDoc1, mythDoc2] ∧
    get_categorymembers mythologyCat none 0 (some 1) [] =
      [mythDoc1, mythDoc2, norseDoc1, norseDoc2, norseDoc3] :=
  ⟨(traverse_descend_iff_bounds.1 "Category:Mythology" 14
      [mythDoc1, mythDoc2, norseCat] none 0 (some 0) []).1 rfl,
   (traverse_descend_iff_bounds.1 "Category:Mythology" 14
      [mythDoc1, mythDoc2, norseCat] none 0 (some 1) []).2 rfl⟩

/-- C2: the traversal result is in pre-order with documents before descent —
direct documents of a node first, then the full subtree result of each
subcategory in enumeration order — and duplicates reachable along several
paths are kept.  On the Mythology scenario the unbounded traversal returns
the 2 direct documents followed by the 3 Norse documents. -/
theorem traverse_preorder_documents_first :
    (∀ (t : String) (n : Int) (ms : List WNode) (level : Nat)
        (pages : List WNode),
      get_categorymembers (.node t n ms) none level none pages =
        pages ++ ms.filter isMainPage ++
          ((ms.filter isCategory).map
            (fun c => get_categorymembers c none (level + 1) none [])).flatten) ∧
    get_categorymembers mythologyCat none 0 none [] =
      [mythDoc1, mythDoc2, norseDoc1, norseDoc2, norseDoc3] ∧
    get_categorymembers dupRoot none 0 none [] = [dupDoc, dupDoc] := by
  refine ⟨?_, rfl, rfl⟩
  intro t n ms level pages
  rw [get_categorymembers_eq]
  rfl

/-- C7: with `max_level = 0` the traversal returns exactly the direct
content documents of the category in listing order, for every threshold;
with `n_pages_per_level_threshold = 0` it does likewise for every depth
bound, since the direct document count is never strictly below 0. -/
theorem traverse_zero_bounds_direct_pages :
    (∀ (t : String) (n : Int) (ms : List WNode) (thr : Option Nat)
        (level : Nat) (pages : List WNode),
      get_categorymembers (.node t n ms) thr level (some 0) pages =
        pages ++ ms.filter isMainPage) ∧
    (∀ (t : String) (n : Int) (ms : List WNode) (maxl : Option Nat)
        (level : Nat) (pages : List WNode),
      get_categorymembers (.node t n ms) (some 0) level maxl pages =
        pages ++ ms.filter isMainPage) := by
  constructor
  · intro t n ms thr level pages
    rw [get_categorymembers_eq]
    have h : descend_condition thr (ms.filter isMainPage).length (some 0) level
        = false := by
      simp [descend_condition]
    simp [h]
  · intro t n ms maxl level pages
    rw [get_categorymembers_eq]
    have h : descend_condition (some 0) (ms.filter isMainPage).length maxl level
        = false := by
      simp [descend_condition]
    simp [h]

/-- C8: on every category graph, cyclic ones included, the traversal with a
finite depth bound `some m` terminates: fuel of at least
`m + 1 - level` (and at least 1) is never exhausted, because each recursive
call raises the level by exactly 1 and descent requires `level < m`. -/
theorem traverse_finite_depth_terminates (g : CategoryGraph) (cat : Nat)
    (thr : Option Nat) (level m : Nat) (pages : List Nat) (fuel : Nat)
    (h1 : 1 ≤ fuel) (h2 : m + 1 ≤ fuel + level) :
    (get_categorymembers_fueled g fuel cat thr level (some m) pages).isSome
      = true :=
  fueled_isSome fuel g cat thr level m pages h1 h2

/-- Witness for C8 on the self-looping graph: depth bound 2 with fuel 3
terminates even though the graph is cyclic. -/
theorem traverse_finite_depth_terminates_witness :
    (1 ≤ 3 ∧ 2 + 1 ≤ 3 + 0) ∧
    (get_categorymembers_fueled cyclicGraph 3 0 none 0 (some 2) []).isSome
      = true :=
  ⟨by decide,
   traverse_finite_depth_terminates cyclicGraph 0 none 0 2 [] 3
     (by decide) (by decide)⟩

/-- C9: a call of `get_categorymembers` returns the supplied accumulator
only extended — the previously accumulated pages are an unchanged prefix and
the result is the old contents followed by the documents discovered during
this call. -/
theorem traverse_accumulator_extension (c : WNode) (thr : Option Nat)
    (level : Nat) (maxl : Option Nat) (pages : List WNode) :
    pages <+: get_categorymembers c thr level maxl pages ∧
    get_categorymembers c thr level maxl pages =
      pages ++ get_categorymembers c thr level maxl [] := by
  refine ⟨?_, get_categorymembers_acc c thr level maxl pages⟩
  rw [get_categorymembers_acc c thr level maxl pages]
  exact List.prefix_append pages _

/-! ## Section extraction: data model -/

/-- A document section as served by the content service: title, body text
(possibly empty), and the ordered child sections (`section.sections`). -/
inductive WSect : Type where
  | mk (title : String) (text : String) (sections : List WSect)
deriving Repr

/-- Title of a section (`section.title`). -/
def WSect.title : WSect → String
  | .mk t _ _ => t

/-- A content document: title, summary text (`page.summary`) and ordered
top-level sections (`page.sections`). -/
structure WikiPage : Type where
  title : String
  summary : String
  sections : List WSect
deriving Repr

/-- Model of Python's `str.lower`: lower-case every character.  On the ASCII
strings at issue this agrees with Python. -/
def str_lower (s : String) : String := ⟨s.data.map Char.toLower⟩

/-- Character-list test: the first list is an initial segment of the
second. -/
def starts_with : List Char → List Char → Bool
  | [], _ => true
  | _ :: _, [] => false
  | a :: as, b :: bs => a == b && starts_with as bs

/-- Character-list test: the first list occurs contiguously somewhere in the
second (at the front or further right). -/
def occurs_within : List Char → List Char → Bool
  | pat, [] => starts_with pat []
  | pat, c :: rest => starts_with pat (c :: rest) || occurs_within pat rest

/-- Model of `re.search('|'.join(patterns), text)` for metacharacter-free
patterns: the join of zero patterns is the empty pattern, which matches at
position 0 of any text; otherwise the search succeeds exactly when some
alternative occurs as a substring (an empty alternative matches anywhere). -/
def re_search_literal (patterns : List String) (text : String) : Bool :=
  patterns.isEmpty || patterns.any (fun p => occurs_within p.data text.data)

/-- Embedding of `filter_by_keywords(text, keywords)` from
`src/functions.py`: `bool(re.search('|'.join(keywords), text.lower()))`.
The text is lower-cased; the keywords are used verbatim. -/
def filter_by_keywords (text : String) (keywords : List String) : Bool :=
  re_search_literal keywords (str_lower text)

mutual

/-- Embedding of `get_section_text(section, section_text_list)` from
`src/functions.py`: append the section's body to the accumulator when it is
non-empty, then recurse into every child section in order.  The Python list
mutated in place is the explicit accumulator. -/
def get_section_text : WSect → List String → List String
  | .mk _ text subs, acc =>
    get_section_text_list subs (if text ≠ "" then acc ++ [text] else acc)

/-- The loop `for s in section.sections: get_section_text(s, ...)`,
threading the accumulator. -/
def get_section_text_list : List WSect → List String → List String
  | [], acc => acc
  | s :: rest, acc => get_section_text_list rest (get_section_text s acc)

end

/-- The test `keywords is None or filter_by_keywords(s.title, keywords)`
applied to each top-level section in `get_page_text`. -/
def keep_section (keywords : Option (List String)) (s : WSect) : Bool :=
  match keywords with
  | none => true
  | some ks => filter_by_keywords s.title ks

/-- The loop `for s in page.sections` of `get_page_text`: the text of every
accepted top-level section (collected by `get_section_text` from a fresh
list, as the Python default argument does) is appended to `page_text`;
rejected sections are skipped whole. -/
def page_text_loop (keywords : Option (List String)) :
    List WSect → List String → List String
  | [], acc => acc
  | s :: rest, acc =>
    if keep_section keywords s then
      page_text_loop keywords rest (acc ++ get_section_text s [])
    else
      page_text_loop keywords rest acc

/-- Embedding of `get_page_text(page, keywords, use_summary_if_empty)` from
`src/functions.py` (`verbose` printing dropped): run the top-level section
loop, then append `page.summary` when the result is empty and the fallback
is enabled. -/
def get_page_text (page : WikiPage) (keywords : Option (List String))
    (use_summary_if_empty : Bool) : List String :=
  let page_text := page_text_loop keywords page.sections []
  if use_summary_if_empty && page_text.length == 0 then
    page_text ++ [page.summary]
  else
    page_text

/-! ## Section extraction: specification-side functions -/

mutual

/-- Pre-order list of the non-empty section bodies of a section tree: the
body first (when non-empty), then the descendants' bodies in child order. -/
def preorder_texts : WSect → List String
  | .mk _ text subs => (if text ≠ "" then [text] else []) ++ preorder_texts_list subs

/-- Pre-order bodies of a forest of sections, in order. -/
def preorder_texts_list : List WSect → List String
  | [] => []
  | s :: rest => preorder_texts s ++ preorder_texts_list rest

end

mutual

/-- Number of sections with non-empty body in a section tree, all depths. -/
def count_nonempty : WSect → Nat
  | .mk _ text subs => (if text ≠ "" then 1 else 0) + count_nonempty_list subs

/-- Number of sections with non-empty body in a forest of sections. -/
def count_nonempty_list : List WSect → Nat
  | [] => 0
  | s :: rest => count_nonempty s + count_nonempty_list rest

end

mutual

/-- Rewrite every section title in a tree, leaving bodies and structure
unchanged. -/
def relabel (f : String → String) : WSect → WSect
  | .mk t text subs => .mk (f t) text (relabel_list f subs)

/-- Rewrite every section title in a forest. -/
def relabel_list (f : String → String) : List WSect → List WSect
  | [] => []
  | s :: rest => relabel f s :: relabel_list f rest

end

/-! ## Section extraction: basic lemmas -/

mutual

/-- `get_section_text` extends its accumulator by exactly the pre-order
non-empty bodies of the section tree. -/
theorem get_section_text_eq (s : WSect) (acc : List String) :
    get_section_text s acc = acc ++ preorder_texts s := by
  cases s with
  | mk t text subs =>
    rw [get_section_text, preorder_texts,
        get_section_text_list_eq subs (if text ≠ "" then acc ++ [text] else acc)]
    by_cases h : text = ""
    · simp [h]
    · simp [h, List.append_assoc]

/-- Accumulator form of the child-section loop. -/
theorem get_section_text_list_eq (ss : List WSect) (acc : List String) :
    get_section_text_list ss acc = acc ++ preorder_texts_list ss := by
  cases ss with
  | nil => simp [get_section_text_list, preorder_texts_list]
  | cons s rest =>
    rw [get_section_text_list, preorder_texts_list,
        get_section_text_list_eq rest (get_section_text s acc),
        get_section_text_eq s acc]
    simp [List.append_assoc]

end

mutual

/-- The pre-order body list has one entry per non-empty-bodied section. -/
theorem preorder_texts_length (s : WSect) :
    (preorder_texts s).length = count_nonempty s := by
  cases s with
  | mk t text subs =>
    rw [preorder_texts, count_nonempty]
    by_cases h : text = ""
    · simp [h, preorder_texts_list_length subs]
    · simp [h, preorder_texts_list_length subs]
      omega

/-- Length of the pre-order body list of a forest. -/
theorem preorder_texts_list_length (ss : List WSect) :
    (preorder_texts_list ss).length = count_nonempty_list ss := by
  cases ss with
  | nil => rfl
  | cons s rest =>
    rw [preorder_texts_list, count_nonempty_list]
    simp [preorder_texts_length s, preorder_texts_list_length rest]

end

mutual

/-- Section titles play no role in text collection: relabelling every title
leaves the pre-order body list unchanged. -/
theorem relabel_preorder_texts (f : String → String) (s : WSect) :
    preorder_texts (relabel f s) = preorder_texts s := by
  cases s with
  | mk t text subs =>
    rw [relabel, preorder_texts, preorder_texts,
        relabel_preorder_texts_list f subs]

/-- Relabelling invariance for forests. -/
theorem relabel_preorder_texts_list (f : String → String) (ss : List WSect) :
    preorder_texts_list (relabel_list f ss) = preorder_texts_list ss := by
  cases ss with
  | nil => rfl
  | cons s rest =>
    rw [relabel_list, preorder_texts_list, preorder_texts_list,
        relabel_preorder_texts f s, relabel_preorder_texts_list f rest]

end

/-- The top-level loop collects, in order, the subtree texts of exactly the
accepted top-level sections, appended to the accumulator. -/
theorem page_text_loop_eq (ks : Option (List String)) (ss : List WSect)
    (acc : List String) :
    page_text_loop ks ss acc =
      acc ++ ((ss.filter (keep_section ks)).map
        (fun s => get_section_text s [])).flatten := by
  induction ss generalizing acc with
  | nil => simp [page_text_loop]
  | cons s rest ih =>
    rw [page_text_loop, List.filter_cons]
    by_cases h : keep_section ks s = true
    · simp only [h, if_pos]
      rw [ih, List.map_cons, List.flatten_cons]
      simp [List.append_assoc]
    · simp only [Bool.not_eq_true] at h
      simp only [h, Bool.false_eq_true, if_neg, not_false_iff]
      exact ih acc

/-- Unfolding of `get_page_text`: the loop result, or the one-element summary
list when the loop result is empty and the fallback is enabled. -/
theorem get_page_text_eq (page : WikiPage) (ks : Option (List String))
    (fb : Bool) :
    get_page_text page ks fb =
      (let body := ((page.sections.filter (keep_section ks)).map
          (fun s => get_section_text s [])).flatten
       if fb && body.length == 0 then [page.summary] else body) := by
  rw [get_page_text]
  simp only [page_text_loop_eq, List.nil_append]
  cases h : (fb && (((page.sections.filter (keep_section ks)).map
      (fun s => get_section_text s [])).flatten).length == 0) with
  | false =>
    simp [h]
  | true =>
    have h2 : ((page.sections.filter (keep_section ks)).map
        (fun s => get_section_text s [])).flatten = [] := by
      have hb := (Bool.and_eq_true_iff.mp h).2
      have hl : (((page.sections.filter (keep_section ks)).map
          (fun s => get_section_text s [])).flatten).length = 0 := by
        simpa using hb
      exact List.length_eq_zero.mp hl
    simp only [h, h2]
    simp

/-- `starts_with` decides the initial-segment relation. -/
theorem starts_with_iff (p : List Char) : ∀ t : List Char,
    starts_with p t = true ↔ p <+: t := by
  induction p with
  | nil =>
    intro t
    simp [starts_with, List.nil_prefix]
  | cons a as ih =>
    intro t
    cases t with
    | nil => simp [starts_with, List.prefix_nil]
    | cons b bs =>
      simp [starts_with, List.cons_prefix_cons, ih bs, Bool.and_eq_true_iff]

/-- `occurs_within` decides the contiguous-substring relation. -/
theorem occurs_within_iff (p : List Char) : ∀ t : List Char,
    occurs_within p t = true ↔ p <:+: t := by
  intro t
  induction t with
  | nil =>
    simp [occurs_within, starts_with_iff, List.prefix_nil]
  | cons c rest ih =>
    rw [occurs_within, List.infix_cons_iff]
    simp [starts_with_iff, ih]

/-- With the empty keyword list every section is kept, exactly as with
absent keywords. -/
theorem page_text_loop_empty_keywords (ss : List WSect) (acc : List String) :
    page_text_loop (some []) ss acc = page_text_loop none ss acc := by
  induction ss generalizing acc with
  | nil => rfl
  | cons s rest ih =>
    rw [page_text_loop, page_text_loop]
    have h1 : keep_section (some []) s = true := rfl
    have h2 : keep_section none s = true := rfl
    rw [h1, h2]
    simp only [if_pos]
    exact ih (acc ++ get_section_text s [])

/-- Absent keywords keep every top-level section. -/
theorem filter_keep_none (l : List WSect) : l.filter (keep_section none) = l := by
  induction l with
  | nil => rfl
  | cons s rest ih =>
    rw [List.filter_cons]
    simp [keep_section, ih]

/-- Flattened pre-order bodies of a forest have one entry per
non-empty-bodied section. -/
theorem flatten_preorder_length (l : List WSect) :
    ((l.map preorder_texts).flatten).length = count_nonempty_list l := by
  induction l with
  | nil => rfl
  | cons s rest ih =>
    rw [List.map_cons, List.flatten_cons, count_nonempty_list]
    simp [preorder_texts_length s, ih]

/-! ## Concrete document fixtures -/

/-- Child section "Aftermath" of the scenario document, body `"B2"`. -/
def aftermathSect : WSect := .mk "Aftermath" "B2" []

/-- Top-level section "Plot" of the scenario document, body `"B1"`, one
child section. -/
def plotSect : WSect := .mk "Plot" "B1" [aftermathSect]

/-- Top-level section "Reception" of the scenario document, body `"B3"`. -/
def receptionSect : WSect := .mk "Reception" "B3" []

/-- The scenario document "Ragnarok". -/
def ragnarokPage : WikiPage :=
  ⟨"Ragnarok", "Ragnarok summary", [plotSect, receptionSect]⟩

/-! ## Claims about the section extraction -/

/-- C3: the keyword filter acts only on top-level sections — once a
top-level section is accepted, collection descends into all descendant
sections unconditionally (titles below depth 1 are never consulted, shown by
relabelling invariance), and a rejected top-level section's whole subtree is
skipped (shown by the filter equation).  On the Ragnarok scenario,
`keywords = ["plot"]` yields `["B1", "B2"]`. -/
theorem extract_top_level_filter_only :
    (∀ (f : String → String) (s : WSect) (acc : List String),
      get_section_text (relabel f s) acc = get_section_text s acc) ∧
    (∀ (page : WikiPage) (ks : List String) (fb : Bool),
      get_page_text page (some ks) fb =
        (let body := ((page.sections.filter
            (fun s => filter_by_keywords s.title ks)).map
            (fun s => get_section_text s [])).flatten
         if fb && body.length == 0 then [page.summary] else body)) ∧
    get_page_text ragnarokPage (some ["plot"]) true = ["B1", "B2"] := by
  refine ⟨?_, ?_, ?_⟩
  · intro f s acc
    rw [get_section_text_eq, get_section_text_eq, relabel_preorder_texts]
  · intro page ks fb
    rw [get_page_text_eq]
    rfl
  · rfl

/-- C4: when the accumulated output is empty and the fallback is enabled,
`get_page_text` returns exactly `[page.summary]` — the summary may itself be
empty — and a document with zero sections yields `[page.summary]` with the
fallback and `[]` without it; no error is raised (the function is total). -/
theorem extract_summary_fallback :
    (∀ (page : WikiPage) (ks : Option (List String)),
      get_page_text page ks false = [] →
      get_page_text page ks true = [page.summary]) ∧
    (∀ (ttl summ : String) (ks : Option (List String)),
      get_page_text ⟨ttl, summ, []⟩ ks true = [summ] ∧
      get_page_text ⟨ttl, summ, []⟩ ks false = []) := by
  constructor
  · intro page ks h
    have hpt : page_text_loop ks page.sections [] = [] := h
    simp [get_page_text, hpt]
  · intro ttl summ ks
    exact ⟨rfl, rfl⟩

/-- Witness for C4: a document with no sections and an empty summary yields
`[]` without the fallback, and exactly `[""]` — the empty summary — with
it. -/
theorem extract_summary_fallback_witness :
    get_page_text ⟨"Empty", "", []⟩ none false = [] ∧
    get_page_text ⟨"Empty", "", []⟩ none true = [""] :=
  ⟨rfl, extract_summary_fallback.1 ⟨"Empty", "", []⟩ none rfl⟩

/-- C5, counterexample: the inclusion test is NOT insensitive to the letter
case of the patterns.  The title is lower-cased but the patterns are used
verbatim, so the patterns `["PLOT"]` and `["plot"]`, equal up to case,
give different results on the title `"Plot"`, and on the Ragnarok document
`["PLOT"]` matches nothing while `["plot"]` selects the Plot subtree. -/
theorem keyword_filter_pattern_case_counterexample :
    filter_by_keywords "Plot" ["PLOT"] = false ∧
    filter_by_keywords "Plot" ["plot"] = true ∧
    filter_by_keywords "Plot" ["PLOT"] ≠ filter_by_keywords "Plot" ["plot"] ∧
    get_page_text ragnarokPage (some ["PLOT"]) false = [] ∧
    get_page_text ragnarokPage (some ["plot"]) false = ["B1", "B2"] := by
  refine ⟨rfl, rfl, ?_, rfl, rfl⟩
  decide

/-- C5, amended: the inclusion test is case-insensitive in the section
title only — the title is lower-cased before matching, so titles equal up
to case are treated identically — while patterns are matched verbatim, and
a section is included exactly when at least one pattern of the (non-empty)
filter occurs as a contiguous substring of the lower-cased title. -/
theorem keyword_filter_title_case_only :
    (∀ (t1 t2 : String) (ks : List String), str_lower t1 = str_lower t2 →
      filter_by_keywords t1 ks = filter_by_keywords t2 ks) ∧
    (∀ (t : String) (ks : List String), ks ≠ [] →
      (filter_by_keywords t ks = true ↔
        ∃ k ∈ ks, k.data <:+: (str_lower t).data)) := by
  constructor
  · intro t1 t2 ks h
    rw [filter_by_keywords, filter_by_keywords, h]
  · intro t ks h
    rw [filter_by_keywords, re_search_literal]
    have hne : ks.isEmpty = false := by
      cases ks with
      | nil => exact absurd rfl h
      | cons k rest => rfl
    rw [hne]
    simp [List.any_eq_true, occurs_within_iff]

/-- Witness for the amended C5: the titles `"PLOT Overview"` and
`"Plot overview"` are treated identically, and `"The Plot"` matches the
filter `["plot"]` exactly because `"plot"` is a substring of the
lower-cased title. -/
theorem keyword_filter_title_case_only_witness :
    filter_by_keywords "PLOT Overview" ["plot"] =
      filter_by_keywords "Plot overview" ["plot"] ∧
    (filter_by_keywords "The Plot" ["plot"] = true ↔
      ∃ k ∈ ["plot"], k.data <:+: (str_lower "The Plot").data) :=
  ⟨keyword_filter_title_case_only.1 "PLOT Overview" "Plot overview" ["plot"]
     (by decide),
   keyword_filter_title_case_only.2 "The Plot" ["plot"] (by decide)⟩

/-- C6: with absent keywords, `get_page_text` returns the pre-order list of
non-empty section bodies of the whole document (every section visited once,
depth first); its length is the number of sections with non-empty body at
all depths; and a section with empty body contributes nothing itself while
its descendants still contribute. -/
theorem extract_no_filter_preorder :
    (∀ (page : WikiPage) (fb : Bool),
      get_page_text page none fb =
        (let body := (page.sections.map preorder_texts).flatten
         if fb && body.length == 0 then [page.summary] else body)) ∧
    (∀ page : WikiPage,
      (get_page_text page none false).length =
        count_nonempty_list page.sections) ∧
    (∀ (t : String) (subs : List WSect),
      preorder_texts (.mk t "" subs) = preorder_texts_list subs) := by
  refine ⟨?_, ?_, ?_⟩
  · intro page fb
    rw [get_page_text_eq]
    simp [filter_keep_none, get_section_text_eq]
  · intro page
    have hbody : get_page_text page none false =
        (page.sections.map preorder_texts).flatten := by
      rw [get_page_text_eq]
      simp [filter_keep_none, get_section_text_eq]
    rw [hbody, flatten_preorder_length]
  · intro t subs
    rw [preorder_texts]
    simp

/-- C10: a present but empty keyword collection accepts every top-level
section — the OR-join of zero patterns is the empty pattern, which matches
every lower-cased title — so extraction behaves exactly as with absent
keywords. -/
theorem keyword_filter_empty_matches_all :
    (∀ t : String, filter_by_keywords t [] = true) ∧
    (∀ (page : WikiPage) (fb : Bool),
      get_page_text page (some []) fb = get_page_text page none fb) := by
  constructor
  · intro t
    rfl
  · intro page fb
    rw [get_page_text, get_page_text, page_text_loop_empty_keywords]
